import Mathlib

/-!
# Verification of `scripts/build-channels.js` (blogtv-data)

Shallow embedding of the channel-building script. JavaScript objects are
modelled as Lean structures whose string fields default to `""` (a missing or
empty string field is falsy in JavaScript, and the script only ever tests such
fields for truthiness). Mappings (`byGroup`, `byCategory`, the two local JSON
files) are modelled as functions `String → List Entry`, with `fun _ => []`
playing the role of `{}` (the script reads them only through
`m[k] || []`-style lookups). Network and filesystem effects are modelled by
passing the response/content as an explicit parameter (`Option` for a call
that can fail). Iteration order of `Object.entries(CATEGORIES)` is the
insertion order of the object literal, so `CATEGORIES` is a list in source
order.
-/

namespace BlogTV

/-- A channel entry as built by `build-channels.js`. JavaScript objects are
open records; the fields below are the union of every field any source
assigns, each defaulting to `""` (absent). `url` is the entry's identity for
deduplication. -/
structure Entry where
  name : String := ""
  url : String := ""
  logo : String := ""
  desc : String := ""
  source : String := ""
  type : String := ""
  category : String := ""
  id : String := ""
  group : String := ""
deriving DecidableEq, Repr

/-- A mapping from a grouping key (playlist group or category name) to
entries; `fun _ => []` models the empty object `{}`. -/
abbrev SourceMap := String → List Entry

/-- One value of the `CATEGORIES` object: playlist group titles, YouTube
search query, TMDB genre id (lines 30-47 of `build-channels.js`). -/
structure CatDef where
  iptv_groups : List String
  yt_query : String
  tmdb_genre_id : Nat
deriving DecidableEq, Repr

/-- The `CATEGORIES` table, in the object literal's insertion order, which is
the iteration order of `Object.entries(CATEGORIES)`. -/
def CATEGORIES : List (String × CatDef) := [
  ("news",          ⟨["News", "General"],        "news live stream",            10763⟩),
  ("technology",    ⟨["Science / Technology"],   "technology documentary",      10759⟩),
  ("science",       ⟨["Science / Technology"],   "science documentary",         99⟩),
  ("history",       ⟨["Education"],              "history documentary",         99⟩),
  ("sports",        ⟨["Sports"],                 "sports live stream",          10759⟩),
  ("music",         ⟨["Music"],                  "music live stream",           10749⟩),
  ("entertainment", ⟨["Entertainment", "Lifestyle"], "entertainment live stream", 10751⟩),
  ("nature",        ⟨["Science / Technology"],   "nature wildlife documentary", 99⟩),
  ("cooking",       ⟨["Lifestyle"],              "cooking show",                10751⟩),
  ("travel",        ⟨["Travel"],                 "travel documentary",          10749⟩),
  ("politics",      ⟨["News", "General"],        "politics documentary",        10763⟩),
  ("business",      ⟨["Business"],               "business finance documentary", 10763⟩),
  ("health",        ⟨["Lifestyle"],              "health wellness documentary", 10751⟩),
  ("kids",          ⟨["Kids"],                   "kids educational show",       10762⟩),
  ("animation",     ⟨["Animation"],              "animation show",              16⟩),
  ("general",       ⟨["General"],                "documentary",                 99⟩)]

/-! ## Merge engine (`mergeAll`, lines 194-240)

The dedup filter keeps a mutable `Set` of seen URLs; `dedupeGo` threads that
set explicitly. `!e.url` is true exactly when `url` is absent or `""`. -/

/-- Model of `entries.filter(e => { if (!e.url || seen.has(e.url)) return
false; seen.add(e.url); return true; })` with the `seen` set made explicit. -/
def dedupeGo : List Entry → List String → List Entry
  | [], _ => []
  | e :: rest, seen =>
    if e.url = "" ∨ e.url ∈ seen then dedupeGo rest seen
    else e :: dedupeGo rest (e.url :: seen)

/-- The per-category URL deduplication of `mergeAll` (lines 227-233): the
`seen` set starts empty for each category. -/
def dedupeByUrl (l : List Entry) : List Entry := dedupeGo l []

/-- The candidate list one category accumulates in `entries` before
deduplication (lines 202-225), in source-precedence order: up to 15 playlist
entries per group, then YouTube, TMDB, custom (source forced to `"custom"`),
and user (source forced to `"user"`) entries, each tagged with the category. -/
def candidates (iptv yt tmdb custom user : SourceMap) (cat : String)
    (d : CatDef) : List Entry :=
  (d.iptv_groups.flatMap fun g => ((iptv g).take 15).map fun s => { s with category := cat })
    ++ ((yt cat).map fun s => { s with category := cat })
    ++ ((tmdb cat).map fun s => { s with category := cat })
    ++ ((custom cat).map fun s => { s with category := cat, source := "custom" })
    ++ ((user cat).map fun s => { s with category := cat, source := "user" })

/-- The top-level output object of `mergeAll` (lines 195-199): generation
timestamp, fixed version tag, and the per-category mapping. The timestamp is
a parameter (`new Date().toISOString()` is an effect). -/
structure OutputDoc where
  updated : String
  version : String
  categories : List (String × List Entry)
deriving DecidableEq, Repr

/-- Function `mergeAll` (lines 194-240): for every category of `CATEGORIES`, in order,
build the candidate list and deduplicate it by URL. -/
def mergeAll (now : String) (iptv yt tmdb custom user : SourceMap) : OutputDoc :=
  { updated := now
    version := "1.0"
    categories := CATEGORIES.map fun p =>
      (p.1, dedupeByUrl (candidates iptv yt tmdb custom user p.1 p.2)) }

/-! ## History builder (`buildUrlHistory`, lines 245-263)

`[...new Set([...defaults, ...existingUrls])]` iterates the combined list in
order, inserting each string into a `Set` and keeping first occurrences;
`dedupStrGo` threads that set explicitly. -/

/-- The ten `defaults` URLs of `buildUrlHistory` (lines 246-257). -/
def historyDefaults : List String := [
  "https://en.wikipedia.org/wiki/Television",
  "https://en.wikipedia.org/wiki/Internet",
  "https://en.wikipedia.org/wiki/Artificial_intelligence",
  "https://en.wikipedia.org/wiki/Space_exploration",
  "https://en.wikipedia.org/wiki/Climate_change",
  "https://en.wikipedia.org/wiki/History_of_the_Internet",
  "https://en.wikipedia.org/wiki/Streaming_media",
  "https://en.wikipedia.org/wiki/Quantum_computing",
  "https://en.wikipedia.org/wiki/Renewable_energy",
  "https://en.wikipedia.org/wiki/Cryptocurrency"]

/-- First-seen deduplication of a string list, the order-preserving meaning of
`[...new Set(l)]`, with the set of already-inserted strings explicit. -/
def dedupStrGo : List String → List String → List String
  | [], _ => []
  | s :: rest, seen =>
    if s ∈ seen then dedupStrGo rest seen
    else s :: dedupStrGo rest (s :: seen)

/-- Function `buildUrlHistory` (lines 245-263) on a list input (`Array.isArray` true):
defaults first, then the persisted URLs, first-seen deduplicated, capped at
50. A non-array input is replaced by `[]` before this path. -/
def buildUrlHistory (existing : List String) : List String :=
  (dedupStrGo (historyDefaults ++ existing) []).take 50

/-! ## Local loader (`loadLocal`, lines 182-191)

`fs.existsSync`/`fs.readFileSync` are modelled by `fsRead : String → Option
String` (`none` = file absent) and `JSON.parse` by `parse : String → Option
SourceMap` (`none` = the parse threw). The `try/catch` makes the function
total: a parse failure degrades to `{}` (plus a warning on the console). -/

/-- Function `loadLocal(filename)` (lines 182-191): missing file or failed parse give
the empty mapping; a successful parse is returned as is. -/
def loadLocal (fsRead : String → Option String) (parse : String → Option SourceMap)
    (filename : String) : SourceMap :=
  match fsRead filename with
  | none => fun _ => []
  | some content =>
    match parse content with
    | none => fun _ => []
    | some m => m

/-! ## YouTube fetcher (`fetchYouTube`, lines 106-142)

One search request per category, carrying the fixed request parameters (in
particular `maxResults: 8`); the response is the abstract parameter
`api : String → Option (List YtItem)`, keyed by the category's `yt_query`
(`none` models a failed request, a response without `items`, or `!data`).
Note the code never truncates the response list itself. -/

/-- The `maxResults` request parameter sent to the search endpoint
(line 120). It is a request hint only; the code does not enforce it on the
response. -/
def ytRequestMax : Nat := 8

/-- One element of `data.items`. `videoId = ""` models an item whose
`i.id`/`i.id.videoId` is absent or empty (both falsy, both filtered out). -/
structure YtItem where
  videoId : String := ""
  title : String := ""
  thumbnail : String := ""
  description : String := ""
deriving DecidableEq, Repr

/-- The normalization of one YouTube item (lines 128-135). `.slice(0, 120)`
is modelled char-wise on the string's character list. -/
def ytEntry (i : YtItem) : Entry :=
  { name := i.title
    url := "https://www.youtube.com/watch?v=" ++ i.videoId
    logo := i.thumbnail
    desc := ⟨i.description.data.take 120⟩
    source := "youtube"
    type := "vod" }

/-- Function `fetchYouTube` (lines 106-142): empty mapping without an API key;
otherwise one request per category in table order, skipping categories whose
response failed (`continue`), filtering items without a `videoId` and
normalizing the rest. The result is the association list `byCategory`. -/
def fetchYouTube (key : String) (api : String → Option (List YtItem)) :
    List (String × List Entry) :=
  if key = "" then []
  else CATEGORIES.filterMap fun p =>
    match api p.2.yt_query with
    | none => none
    | some items => some (p.1, (items.filter fun i => i.videoId != "").map ytEntry)

/-! ## TMDB fetcher (`fetchTMDB`, lines 145-179)

One discover request per *genre id*: the `seen` set is consulted before the
request and the genre id is added to it whether or not the request succeeds.
The response is the abstract `api : Nat → Option (List TmdbResult)`, keyed by
genre id (`none` models a failed request or a response without `results`). -/

/-- One element of `data.results`. `name = ""` models a missing/empty `name`
(falsy, so `r.name || r.original_name` falls back); `poster_path = ""` a
missing poster path. -/
structure TmdbResult where
  name : String := ""
  original_name : String := ""
  tmdbId : Nat := 0
  poster_path : String := ""
  overview : String := ""
deriving DecidableEq, Repr

/-- The normalization of one TMDB result (lines 166-173). -/
def tmdbEntry (r : TmdbResult) : Entry :=
  { name := if r.name = "" then r.original_name else r.name
    url := "https://www.themoviedb.org/tv/" ++ Nat.repr r.tmdbId
    logo := if r.poster_path = "" then "" else ("https://image.tmdb.org/t/p/w92" ++ r.poster_path)
    desc := ⟨r.overview.data.take 120⟩
    source := "tmdb"
    type := "info" }

/-- The per-category loop of `fetchTMDB` (lines 154-177), threading the
`seen` set of already-claimed genre ids. A claimed genre id is skipped before
any request; an unclaimed one is added to `seen` before the request, so even
a failed request claims it. Only the first 8 results are kept. -/
def fetchTMDBGo (api : Nat → Option (List TmdbResult)) :
    List (String × CatDef) → List Nat → List (String × List Entry)
  | [], _ => []
  | p :: rest, seen =>
    if p.2.tmdb_genre_id ∈ seen then fetchTMDBGo api rest seen
    else
      match api p.2.tmdb_genre_id with
      | none => fetchTMDBGo api rest (p.2.tmdb_genre_id :: seen)
      | some results =>
        (p.1, (results.take 8).map tmdbEntry) :: fetchTMDBGo api rest (p.2.tmdb_genre_id :: seen)

/-- Function `fetchTMDB` (lines 145-179): empty mapping without an API key, otherwise
the genre-deduplicated per-category loop over the table in order. -/
def fetchTMDB (key : String) (api : Nat → Option (List TmdbResult)) :
    List (String × List Entry) :=
  if key = "" then [] else fetchTMDBGo api CATEGORIES []

/-! ## JavaScript string primitives

Models of the string operations `fetchIptvOrg` uses (`split('\n')`, `trim()`,
`startsWith(...)`), written over the string's character list so that they are
fully executable. `trim` strips the usual whitespace characters from both
ends. -/

/-- A whitespace character as removed by JavaScript `trim()` (restricted to
the ASCII whitespace that occurs in M3U text). -/
def wsChar (c : Char) : Bool := c = ' ' ∨ c = '\t' ∨ c = '\n' ∨ c = '\r'

/-- Model of `line.trim()`. -/
def jsTrim (s : String) : String :=
  ⟨((s.data.dropWhile wsChar).reverse.dropWhile wsChar).reverse⟩

/-- Model of `s.startsWith(pre)`. -/
def jsStartsWith (s pre : String) : Bool := pre.data.isPrefixOf s.data

/-- Split a character list at every occurrence of the separator `c`. -/
def splitCh (c : Char) : List Char → List (List Char)
  | [] => [[]]
  | a :: rest =>
    let r := splitCh c rest
    if a = c then [] :: r
    else
      match r with
      | [] => [[a]]
      | h :: t => (a :: h) :: t

/-- Model of `raw.split('\n')`. -/
def jsSplitLines (s : String) : List String := (splitCh '\n' s.data).map String.mk

/-! ## iptv-org fetcher (`fetchIptvOrg`, lines 63-103)

The four regex extractions on an `#EXTINF` line (lines 79-82: group-title,
display name after the first comma, tvg-logo, tvg-id, with their fallbacks
`'Unknown'`/`''`/`''`/`'General'`) are abstracted as the parameter
`extract : String → IptvMeta` applied to the trimmed line; the line-pairing
state machine and the per-group accumulation are embedded from the source.
The claims settled here concern the pairing, which does not depend on the
field extraction. -/

/-- The `current` object built from an `#EXTINF` line (lines 83-90), before
its URL is known. -/
structure IptvMeta where
  name : String := "Unknown"
  logo : String := ""
  tvgId : String := ""
  group : String := "General"
deriving DecidableEq, Repr

/-- The object `{ ...current, url: trimmed }` as pushed into `byGroup` (line 96): the
metadata of the `#EXTINF` line plus the URL line, tagged
`source: 'iptv-org'`, `type: 'live'` (lines 88-89). -/
def iptvEntry (c : IptvMeta) (u : String) : Entry :=
  { name := c.name
    url := u
    logo := c.logo
    source := "iptv-org"
    type := "live"
    id := c.tvgId
    group := c.group }

/-- Model of `if (!byGroup[g]) byGroup[g] = []; if (byGroup[g].length < 60)
byGroup[g].push(...)` (lines 94-96): append the entry to its group unless the
group already holds 60 entries. -/
def pushGroup (m : SourceMap) (g : String) (e : Entry) : SourceMap :=
  fun g' => if g' = g then (if (m g).length < 60 then m g ++ [e] else m g) else m g'

/-- The line loop of `fetchIptvOrg` (lines 75-99): an `#EXTINF` line replaces
`current`; a line starting with `http` while a `current` is pending emits the
pair and clears `current`; every other line (including an `http` line with no
pending `current`) is ignored. -/
def iptvLoop (extract : String → IptvMeta) (lines : List String)
    (current : Option IptvMeta) (acc : SourceMap) : SourceMap :=
  match lines with
  | [] => acc
  | line :: rest =>
    if jsStartsWith (jsTrim line) "#EXTINF" then
      iptvLoop extract rest (some (extract (jsTrim line))) acc
    else if jsStartsWith (jsTrim line) "http" then
      match current with
      | some c => iptvLoop extract rest none (pushGroup acc c.group (iptvEntry c (jsTrim line)))
      | none => iptvLoop extract rest none acc
    else
      iptvLoop extract rest current acc

/-- Function `fetchIptvOrg` (lines 63-103): `none` models a failed fetch (`!raw`),
returning `{}`; otherwise the playlist text is split into lines and run
through the pairing loop with no pending `current` and empty groups. -/
def fetchIptvOrg (extract : String → IptvMeta) (raw : Option String) : SourceMap :=
  match raw with
  | none => fun _ => []
  | some text => iptvLoop extract (jsSplitLines text) none (fun _ => [])

/-- The metadata/URL pairs the loop emits, in emission order: an `#EXTINF`
line replaces the pending metadata, an `http` line with pending metadata
emits a pair. `iptvLoop` is this pairing followed by the per-group fold
(`iptvLoop_eq_foldl_iptvPairs`). -/
def iptvPairs (extract : String → IptvMeta) (lines : List String)
    (current : Option IptvMeta) : List (IptvMeta × String) :=
  match lines with
  | [] => []
  | line :: rest =>
    if jsStartsWith (jsTrim line) "#EXTINF" then
      iptvPairs extract rest (some (extract (jsTrim line)))
    else if jsStartsWith (jsTrim line) "http" then
      match current with
      | some c => (c, jsTrim line) :: iptvPairs extract rest none
      | none => iptvPairs extract rest none
    else
      iptvPairs extract rest current

/-! ## Properties of the URL deduplication -/

theorem flatMap_const_nil {α β : Type} (l : List α) :
    (l.flatMap fun _ => ([] : List β)) = [] := by
  induction l with
  | nil => rfl
  | cons a t ih => simp [List.flatMap_cons, ih]

theorem dedupeGo_mem (l : List Entry) (seen : List String) :
    ∀ e ∈ dedupeGo l seen, e.url ≠ "" ∧ e.url ∉ seen := by
  induction l generalizing seen with
  | nil => simp [dedupeGo]
  | cons a rest ih =>
    intro e he
    rw [dedupeGo] at he
    by_cases h : a.url = "" ∨ a.url ∈ seen
    · rw [if_pos h] at he
      exact ih seen e he
    · rw [if_neg h] at he
      push_neg at h
      rcases List.mem_cons.mp he with he | he
      · exact he ▸ h
      · have := ih (a.url :: seen) e he
        exact ⟨this.1, fun hs => this.2 (List.mem_cons_of_mem _ hs)⟩

theorem dedupeGo_pairwise (l : List Entry) (seen : List String) :
    (dedupeGo l seen).Pairwise (fun a b => a.url ≠ b.url) := by
  induction l generalizing seen with
  | nil => simp [dedupeGo]
  | cons a rest ih =>
    rw [dedupeGo]
    by_cases h : a.url = "" ∨ a.url ∈ seen
    · rw [if_pos h]
      exact ih seen
    · rw [if_neg h]
      refine List.Pairwise.cons (fun b hb hab => ?_) (ih _)
      have := (dedupeGo_mem rest (a.url :: seen) b hb).2
      exact this (hab ▸ List.mem_cons_self _ _)

theorem dedupeGo_find (l : List Entry) (seen : List String) (u : String)
    (hu : u ≠ "") (hs : u ∉ seen) :
    (dedupeGo l seen).find? (fun e => e.url == u) = l.find? (fun e => e.url == u) := by
  induction l generalizing seen with
  | nil => simp [dedupeGo]
  | cons a rest ih =>
    rw [dedupeGo]
    by_cases ha : a.url = u
    · have hkeep : ¬(a.url = "" ∨ a.url ∈ seen) := by
        rw [ha]; exact fun h => h.elim hu hs
      rw [if_neg hkeep]
      rw [List.find?_cons_of_pos _ (by simp [ha]), List.find?_cons_of_pos _ (by simp [ha])]
    · by_cases h : a.url = "" ∨ a.url ∈ seen
      · rw [if_pos h, ih seen hs, List.find?_cons_of_neg _ (by simp [ha])]
      · rw [if_neg h, List.find?_cons_of_neg _ (by simp [ha]),
          List.find?_cons_of_neg _ (by simp [ha])]
        refine ih (a.url :: seen) ?_
        intro hmem
        rcases List.mem_cons.mp hmem with h' | h'
        · exact ha h'.symm
        · exact hs h'

/-- C1: for every run of `mergeAll`, on any inputs, every entry of any
category's list in the output document has a non-empty `url`, and within a
single category's list the `url` values are pairwise distinct (entries with a
missing/empty `url` having been discarded by the dedup filter). -/
theorem mergeAll_url_invariant (now : String) (iptv yt tmdb custom user : SourceMap)
    (cat : String) (l : List Entry)
    (h : (cat, l) ∈ (mergeAll now iptv yt tmdb custom user).categories) :
    (∀ e ∈ l, e.url ≠ "") ∧ l.Pairwise (fun a b => a.url ≠ b.url) := by
  rw [mergeAll] at h
  simp only [List.mem_map] at h
  obtain ⟨p, _, hpe⟩ := h
  obtain ⟨-, hl⟩ := Prod.mk.injEq .. ▸ hpe
  subst hl
  exact ⟨fun e he => (dedupeGo_mem _ [] e he).1, dedupeGo_pairwise _ []⟩

/-- Witness input for C1: a curated list for `news` containing a duplicated
URL and an entry with no URL. -/
def customDupW : SourceMap := fun c =>
  if c = "news" then
    [{ url := "https://a.example" }, { url := "https://a.example", name := "dup" },
     { name := "nourl" }]
  else []

/-- The single entry `customDupW` collapses to under `mergeAll`. -/
def dupSurvivorW : Entry := { url := "https://a.example", source := "custom", category := "news" }

theorem mergeAll_url_invariant_witness :
    (("news", [dupSurvivorW]) ∈
        (mergeAll ("t") (fun _ => []) (fun _ => []) (fun _ => []) customDupW (fun _ => [])).categories) ∧
      ((∀ e ∈ [dupSurvivorW], e.url ≠ "") ∧
        List.Pairwise (fun a b => a.url ≠ b.url) [dupSurvivorW]) :=
  ⟨by decide,
    mergeAll_url_invariant ("t") (fun _ => []) (fun _ => []) (fun _ => []) customDupW (fun _ => [])
      "news" _ (by decide)⟩

/-- C2: per category the output list is exactly the first-seen-wins URL
deduplication of the candidate list, whose order is the fixed source
precedence (playlist groups, video search, metadata, curated, user): for any
non-empty URL, the surviving entry is the first candidate carrying it. -/
theorem mergeAll_first_seen_wins (now : String) (iptv yt tmdb custom user : SourceMap)
    (cat : String) (l : List Entry)
    (h : (cat, l) ∈ (mergeAll now iptv yt tmdb custom user).categories) :
    ∃ d, (cat, d) ∈ CATEGORIES ∧
      l = dedupeByUrl (candidates iptv yt tmdb custom user cat d) ∧
      ∀ u, u ≠ "" →
        l.find? (fun e => e.url == u) =
          (candidates iptv yt tmdb custom user cat d).find? (fun e => e.url == u) := by
  rw [mergeAll] at h
  simp only [List.mem_map] at h
  obtain ⟨p, hp, hpe⟩ := h
  obtain ⟨hc, hl⟩ := Prod.mk.injEq .. ▸ hpe
  subst hc; subst hl
  exact ⟨p.2, hp, rfl, fun u hu => dedupeGo_find _ [] u hu (by simp)⟩

/-- Witness for C2 at a concrete input realizing the claim's instance: the
same URL occurs under playlist group `News` and under the curated overrides
for `news`; the playlist-sourced entry survives and the curated one is
dropped. -/
def iptvClashW : SourceMap := fun g =>
  if g = "News" then
    [{ name := "P", url := "https://s.example", source := "iptv-org", type := "live" }]
  else []

def customClashW : SourceMap := fun c =>
  if c = "news" then [{ name := "C", url := "https://s.example" }] else []

/-- The playlist-sourced entry that survives the clash with the curated one
sharing its URL. -/
def clashSurvivorW : Entry :=
  { name := "P", url := "https://s.example", source := "iptv-org", type := "live",
    category := "news" }

theorem mergeAll_first_seen_wins_witness :
    (("news", [clashSurvivorW]) ∈
        (mergeAll ("t") iptvClashW (fun _ => []) (fun _ => []) customClashW (fun _ => [])).categories) ∧
      (∃ d, ("news", d) ∈ CATEGORIES ∧
        [clashSurvivorW] =
          dedupeByUrl
            (candidates iptvClashW (fun _ => []) (fun _ => []) customClashW (fun _ => []) "news" d) ∧
        ∀ u, u ≠ "" →
          List.find? (fun e => e.url == u) [clashSurvivorW] =
            (candidates iptvClashW (fun _ => []) (fun _ => []) customClashW (fun _ => []) "news"
                d).find?
              (fun e => e.url == u)) :=
  ⟨by decide,
    mergeAll_first_seen_wins ("t") iptvClashW (fun _ => []) (fun _ => []) customClashW (fun _ => [])
      "news" _ (by decide)⟩

/-- C3: with all three fetched mappings empty, the output document still has
exactly the 16 fixed category keys, in order, and each category's list is the
URL-deduplication of its curated entries (source forced to `custom`) followed
by its user entries (source forced to `user`), both tagged with the
category. -/
theorem mergeAll_empty_fetch (now : String) (custom user : SourceMap) :
    (mergeAll now (fun _ => []) (fun _ => []) (fun _ => []) custom user).categories =
      CATEGORIES.map (fun p =>
        (p.1, dedupeByUrl
          (((custom p.1).map fun s => { s with category := p.1, source := "custom" })
            ++ ((user p.1).map fun s => { s with category := p.1, source := "user" })))) ∧
    ((mergeAll now (fun _ => []) (fun _ => []) (fun _ => []) custom user).categories).map
        Prod.fst =
      ["news", "technology", "science", "history", "sports", "music", "entertainment",
       "nature", "cooking", "travel", "politics", "business", "health", "kids",
       "animation", "general"] := by
  constructor
  · rw [mergeAll]
    refine List.map_congr_left fun p _ => ?_
    simp [candidates, flatMap_const_nil]
  · rfl

/-- C10: the `seen` set of the dedup filter is created anew for each
category, so the same URL can appear in two different categories' final
lists: with a single playlist entry under group `News` (a group both `news`
and `politics` reference), the output carries that entry's URL in both
categories. -/
def iptvCrossW : SourceMap := fun g =>
  if g = "News" then [{ name := "S", url := "https://cross.example" }] else []

/-- The shared entry as it appears under a given category. -/
def crossEntryW (cat : String) : Entry :=
  { name := "S", url := "https://cross.example", category := cat }

theorem mergeAll_dedup_scoped_per_category :
    (("news", [crossEntryW ("news")]) ∈
        (mergeAll ("t") iptvCrossW (fun _ => []) (fun _ => []) (fun _ => [])
            (fun _ => [])).categories) ∧
      (("politics", [crossEntryW ("politics")]) ∈
        (mergeAll ("t") iptvCrossW (fun _ => []) (fun _ => []) (fun _ => [])
            (fun _ => [])).categories) ∧
      (crossEntryW ("news")).url = (crossEntryW ("politics")).url ∧
      (crossEntryW ("news")).url ≠ "" := by decide

/-! ## Properties of the history builder -/

/-- The contents of the dedup set after processing a list of strings. -/
def seenAfter : List String → List String → List String
  | [], seen => seen
  | s :: rest, seen =>
    if s ∈ seen then seenAfter rest seen else seenAfter rest (s :: seen)

theorem mem_seenAfter (l : List String) (seen : List String) (x : String) :
    x ∈ seenAfter l seen ↔ x ∈ l ∨ x ∈ seen := by
  induction l generalizing seen with
  | nil => simp [seenAfter]
  | cons s rest ih =>
    rw [seenAfter]
    by_cases h : s ∈ seen
    · rw [if_pos h, ih]
      constructor
      · rintro (hx | hx)
        · exact Or.inl (List.mem_cons_of_mem _ hx)
        · exact Or.inr hx
      · rintro (hx | hx)
        · rcases List.mem_cons.mp hx with rfl | hx
          · exact Or.inr h
          · exact Or.inl hx
        · exact Or.inr hx
    · rw [if_neg h, ih]
      simp only [List.mem_cons]
      tauto

theorem dedupStrGo_append (A B seen : List String) :
    dedupStrGo (A ++ B) seen = dedupStrGo A seen ++ dedupStrGo B (seenAfter A seen) := by
  induction A generalizing seen with
  | nil => simp [dedupStrGo, seenAfter]
  | cons s rest ih =>
    rw [List.cons_append, dedupStrGo, dedupStrGo, seenAfter]
    by_cases h : s ∈ seen
    · rw [if_pos h, if_pos h, if_pos h, ih]
    · rw [if_neg h, if_neg h, if_neg h, ih, List.cons_append]

theorem dedupStrGo_eq_self (l seen : List String) (hn : l.Nodup)
    (hd : ∀ a ∈ l, a ∉ seen) : dedupStrGo l seen = l := by
  induction l generalizing seen with
  | nil => rfl
  | cons s rest ih =>
    rw [dedupStrGo, if_neg (hd s (List.mem_cons_self _ _))]
    congr 1
    refine ih (s :: seen) (List.Nodup.of_cons hn) fun a ha hmem => ?_
    rcases List.mem_cons.mp hmem with rfl | hmem
    · exact (List.nodup_cons.mp hn).1 ha
    · exact hd a (List.mem_cons_of_mem _ ha) hmem

theorem dedupStrGo_all_seen (l seen : List String) (h : ∀ a ∈ l, a ∈ seen) :
    dedupStrGo l seen = [] := by
  induction l with
  | nil => rfl
  | cons s rest ih =>
    rw [dedupStrGo, if_pos (h s (List.mem_cons_self _ _))]
    exact ih fun a ha => h a (List.mem_cons_of_mem _ ha)

theorem dedupStrGo_mem (l seen : List String) :
    ∀ a ∈ dedupStrGo l seen, a ∈ l ∧ a ∉ seen := by
  induction l generalizing seen with
  | nil => simp [dedupStrGo]
  | cons s rest ih =>
    intro a ha
    rw [dedupStrGo] at ha
    by_cases h : s ∈ seen
    · rw [if_pos h] at ha
      obtain ⟨h1, h2⟩ := ih seen a ha
      exact ⟨List.mem_cons_of_mem _ h1, h2⟩
    · rw [if_neg h] at ha
      rcases List.mem_cons.mp ha with rfl | ha
      · exact ⟨List.mem_cons_self _ _, h⟩
      · obtain ⟨h1, h2⟩ := ih (s :: seen) a ha
        exact ⟨List.mem_cons_of_mem _ h1,
          fun hs => h2 (List.mem_cons_of_mem _ hs)⟩

theorem dedupStrGo_nodup (l seen : List String) : (dedupStrGo l seen).Nodup := by
  induction l generalizing seen with
  | nil => simp [dedupStrGo]
  | cons s rest ih =>
    rw [dedupStrGo]
    by_cases h : s ∈ seen
    · rw [if_pos h]
      exact ih seen
    · rw [if_neg h]
      refine List.nodup_cons.mpr ⟨fun hmem => ?_, ih _⟩
      exact (dedupStrGo_mem rest (s :: seen) s hmem).2 (List.mem_cons_self _ _)

theorem historyDefaults_nodup : historyDefaults.Nodup := by decide

theorem historyDefaults_length : historyDefaults.length = 10 := by decide

/-- Shape lemma: `buildUrlHistory existing` is the ten defaults followed by the first 40
new persisted URLs (first-seen deduplicated, defaults removed). -/
theorem buildUrlHistory_shape (existing : List String) :
    buildUrlHistory existing =
      historyDefaults ++ (dedupStrGo existing (seenAfter historyDefaults [])).take 40 := by
  rw [buildUrlHistory, dedupStrGo_append,
    dedupStrGo_eq_self historyDefaults [] historyDefaults_nodup (by simp),
    List.take_append_eq_append_take, historyDefaults_length,
    List.take_of_length_le (show historyDefaults.length ≤ 50 by decide)]

/-- C7: on every input, the history list has at most 50 elements and its
first ten elements are exactly the ten default URLs (so the defaults are
always present and can never be crowded out). -/
theorem buildUrlHistory_cap_and_defaults (existing : List String) :
    (buildUrlHistory existing).length ≤ 50 ∧
      (buildUrlHistory existing).take 10 = historyDefaults := by
  constructor
  · rw [buildUrlHistory]
    exact (List.length_take _ _).le.trans (Nat.min_le_left _ _)
  · rw [buildUrlHistory_shape, List.take_append_eq_append_take, historyDefaults_length,
      Nat.sub_self, List.take_zero, List.append_nil]
    exact List.take_of_length_le (show historyDefaults.length ≤ 10 by decide)

/-- C6: `buildUrlHistory` is idempotent: feeding its own output back in
reproduces that output unchanged (within the 50-entry cap). -/
theorem buildUrlHistory_idempotent (existing : List String) :
    buildUrlHistory (buildUrlHistory existing) = buildUrlHistory existing := by
  rw [buildUrlHistory_shape existing]
  set r := (dedupStrGo existing (seenAfter historyDefaults [])).take 40 with hr
  have hrD : ∀ a ∈ r, a ∉ historyDefaults := by
    intro a ha hD
    exact (dedupStrGo_mem existing (seenAfter historyDefaults []) a
      (List.take_subset 40 _ ha)).2 ((mem_seenAfter _ _ _).mpr (Or.inl hD))
  have hrN : r.Nodup :=
    (List.take_sublist 40 _).nodup (dedupStrGo_nodup existing _)
  have hseen : ∀ a ∈ r, a ∉ seenAfter historyDefaults (seenAfter historyDefaults []) := by
    intro a ha h
    rcases (mem_seenAfter _ _ _).mp h with hD | h'
    · exact hrD a ha hD
    · rcases (mem_seenAfter _ _ _).mp h' with hD | h0
      · exact hrD a ha hD
      · exact (List.not_mem_nil a) h0
  rw [buildUrlHistory,
    dedupStrGo_append historyDefaults (historyDefaults ++ r) [],
    dedupStrGo_eq_self historyDefaults [] historyDefaults_nodup (by simp),
    dedupStrGo_append historyDefaults r (seenAfter historyDefaults []),
    dedupStrGo_all_seen historyDefaults _ (fun a ha => (mem_seenAfter _ _ _).mpr (Or.inl ha)),
    dedupStrGo_eq_self r _ hrN hseen, List.nil_append,
    List.take_append_eq_append_take, historyDefaults_length,
    List.take_of_length_le (show historyDefaults.length ≤ 50 by decide)]
  congr 1
  exact List.take_of_length_le ((List.length_take _ _).le.trans (Nat.min_le_left _ _))

/-! ## Properties of the local loader -/

/-- C8: `loadLocal` returns the parsed JSON content when the file exists and
parses, and the empty mapping when the file is absent (`fsRead = none`) or
the parse throws (`parse = none`). It is a total function — the `try/catch`
means a parse failure can only warn, never abort the run. -/
theorem loadLocal_error_tolerant (fsRead : String → Option String)
    (parse : String → Option SourceMap) (filename : String) :
    loadLocal fsRead parse filename =
      (((fsRead filename).bind parse).getD fun _ => []) := by
  cases h : fsRead filename with
  | none => simp [loadLocal, h]
  | some content =>
    cases hp : parse content with
    | none => simp [loadLocal, h, hp]
    | some m => simp [loadLocal, h, hp]

/-! ## Properties of the TMDB fetcher -/

/-- The categories that claim their genre id first, in table order: the same
skip logic as `fetchTMDBGo`, independent of any response. -/
def claimants : List (String × CatDef) → List Nat → List String
  | [], _ => []
  | p :: rest, seen =>
    if p.2.tmdb_genre_id ∈ seen then claimants rest seen
    else p.1 :: claimants rest (p.2.tmdb_genre_id :: seen)

theorem fetchTMDBGo_keys_subset (api : Nat → Option (List TmdbResult))
    (cats : List (String × CatDef)) (seen : List Nat) :
    ∀ c ∈ (fetchTMDBGo api cats seen).map Prod.fst, c ∈ claimants cats seen := by
  induction cats generalizing seen with
  | nil => simp [fetchTMDBGo]
  | cons p rest ih =>
    intro c hc
    rw [fetchTMDBGo] at hc
    rw [claimants]
    by_cases h : p.2.tmdb_genre_id ∈ seen
    · rw [if_pos h] at hc
      rw [if_pos h]
      exact ih seen c hc
    · rw [if_neg h] at hc
      rw [if_neg h]
      cases hapi : api p.2.tmdb_genre_id with
      | none =>
        rw [hapi] at hc
        exact List.mem_cons_of_mem _ (ih _ c hc)
      | some results =>
        rw [hapi, List.map_cons] at hc
        rcases List.mem_cons.mp hc with hc | hc
        · exact hc ▸ List.mem_cons_self _ _
        · exact List.mem_cons_of_mem _ (ih _ c hc)

/-- C4: whenever two distinct positions of the category table share the same
`tmdb_genre_id`, the later category never appears as a key of `fetchTMDB`'s
result — for any API key and any API responses, the first category to claim a
genre id wins the request and later categories sharing that id receive no
entries at all from this source. -/
theorem fetchTMDB_genre_first_wins (key : String) (api : Nat → Option (List TmdbResult))
    (i j : Fin CATEGORIES.length) (hij : i < j)
    (hg : (CATEGORIES.get i).2.tmdb_genre_id = (CATEGORIES.get j).2.tmdb_genre_id) :
    (CATEGORIES.get j).1 ∉ (fetchTMDB key api).map Prod.fst := by
  intro hmem
  have hsub : (CATEGORIES.get j).1 ∈ claimants CATEGORIES [] := by
    rw [fetchTMDB] at hmem
    by_cases hk : key = ""
    · rw [if_pos hk] at hmem
      simp at hmem
    · rw [if_neg hk] at hmem
      exact fetchTMDBGo_keys_subset api CATEGORIES [] _ hmem
  have H : ∀ i j : Fin CATEGORIES.length, i < j →
      (CATEGORIES.get i).2.tmdb_genre_id = (CATEGORIES.get j).2.tmdb_genre_id →
      (CATEGORIES.get j).1 ∉ claimants CATEGORIES [] := by decide
  exact H i j hij hg hsub

/-- Witness for C4 at concrete positions: `science` (position 2) and
`history` (position 3) share genre id 99, so `history` gets no entries even
from an API that answers every genre. -/
theorem fetchTMDB_genre_first_wins_witness :
    ((⟨2, by decide⟩ : Fin CATEGORIES.length) < ⟨3, by decide⟩) ∧
      (CATEGORIES.get ⟨2, by decide⟩).2.tmdb_genre_id =
        (CATEGORIES.get ⟨3, by decide⟩).2.tmdb_genre_id ∧
      (CATEGORIES.get ⟨3, by decide⟩).1 ∉
        (fetchTMDB ("k") (fun _ => some [{ name := "T" }])).map Prod.fst :=
  ⟨by decide, by decide,
    fetchTMDB_genre_first_wins ("k") (fun _ => some [{ name := "T" }])
      ⟨2, by decide⟩ ⟨3, by decide⟩ (by decide) (by decide)⟩

/-! ## Properties of the YouTube fetcher

The request carries `maxResults: 8`, but — unlike the TMDB branch, which
applies `.slice(0, 8)` — the code never truncates the response's item list:
the per-category output length is bounded by the response length, not by 8.
-/

/-- A response of 9 items (more than the requested `maxResults: 8`) for the
`documentary` query, which belongs to the `general` category. -/
def ytNineApi : String → Option (List YtItem) := fun q =>
  if q = "documentary" then
    some [{ videoId := "v1" }, { videoId := "v2" }, { videoId := "v3" },
          { videoId := "v4" }, { videoId := "v5" }, { videoId := "v6" },
          { videoId := "v7" }, { videoId := "v8" }, { videoId := "v9" }]
  else none

/-- Counterexample to C5 as stated: `fetchYouTube` does not truncate the
response, so an API response carrying 9 items yields 9 entries for the
`general` category — more than 8. -/
theorem fetchYouTube_over_cap_counterexample :
    ((fetchYouTube ("k") ytNineApi).map fun p => (p.1, p.2.length)) = [("general", 9)] ∧
      ¬(9 ≤ ytRequestMax) := by decide

/-- C5 as amended: `fetchYouTube` requests at most `maxResults = 8` items
per category but trusts the response: in all cases every returned entry is
tagged `type = vod` with the video-origin source tag `youtube`, and whenever
every response holds at most 8 items (as the API contract promises), every
category receives at most 8 entries. -/
theorem fetchYouTube_cap_and_tags (key : String) (api : String → Option (List YtItem))
    (cat : String) (l : List Entry) (h : (cat, l) ∈ fetchYouTube key api) :
    (∀ e ∈ l, e.type = "vod" ∧ e.source = "youtube") ∧
      ((∀ q items, api q = some items → items.length ≤ ytRequestMax) →
        l.length ≤ 8) := by
  rw [fetchYouTube] at h
  by_cases hk : key = ""
  · rw [if_pos hk] at h
    exact absurd h (List.not_mem_nil _)
  · rw [if_neg hk] at h
    obtain ⟨p, hp, hpe⟩ := List.mem_filterMap.mp h
    cases hq : api p.2.yt_query with
    | none => rw [hq] at hpe; exact absurd hpe (by simp)
    | some items =>
      rw [hq] at hpe
      obtain ⟨-, hl⟩ := Prod.mk.injEq .. ▸ Option.some.injEq .. ▸ hpe
      subst hl
      constructor
      · intro e he
        obtain ⟨i, -, hie⟩ := List.mem_map.mp he
        exact hie ▸ ⟨rfl, rfl⟩
      · intro hapi
        rw [List.length_map]
        exact (List.length_filter_le _ _).trans (hapi _ _ hq)

/-- A one-item response for the `documentary` query, honoring
`maxResults`. -/
def ytOneApi : String → Option (List YtItem) := fun q =>
  if q = "documentary" then some [{ videoId := "v" }] else none

theorem fetchYouTube_cap_and_tags_witness :
    (("general", [ytEntry { videoId := "v" }]) ∈ fetchYouTube ("k") ytOneApi) ∧
      (∀ e ∈ [ytEntry { videoId := "v" }], e.type = "vod" ∧ e.source = "youtube") ∧
      ((∀ q items, ytOneApi q = some items → items.length ≤ ytRequestMax) →
        [ytEntry { videoId := "v" }].length ≤ 8) :=
  ⟨by decide,
    fetchYouTube_cap_and_tags ("k") ytOneApi ("general") [ytEntry { videoId := "v" }]
      (by decide)⟩

/-! ## Properties of the iptv-org fetcher -/

theorem iptvLoop_eq_foldl (extract : String → IptvMeta) (lines : List String)
    (current : Option IptvMeta) (acc : SourceMap) :
    iptvLoop extract lines current acc =
      (iptvPairs extract lines current).foldl
        (fun m pu => pushGroup m pu.1.group (iptvEntry pu.1 pu.2)) acc := by
  induction lines generalizing current acc with
  | nil => rfl
  | cons line rest ih =>
    rw [iptvLoop.eq_def, iptvPairs.eq_def]
    dsimp only
    by_cases h1 : jsStartsWith (jsTrim line) "#EXTINF" = true
    · rw [if_pos h1, if_pos h1, ih]
    · rw [if_neg h1, if_neg h1]
      by_cases h2 : jsStartsWith (jsTrim line) "http" = true
      · rw [if_pos h2, if_pos h2]
        cases current with
        | some c => rw [List.foldl_cons]; exact ih ..
        | none => exact ih ..
      · rw [if_neg h2, if_neg h2]
        exact ih ..

theorem foldl_pushGroup_mem (pairs : List (IptvMeta × String)) (acc : SourceMap)
    (g : String) (e : Entry)
    (h : e ∈ (pairs.foldl (fun m pu => pushGroup m pu.1.group (iptvEntry pu.1 pu.2)) acc) g) :
    e ∈ acc g ∨ ∃ c u, (c, u) ∈ pairs ∧ e = iptvEntry c u ∧ g = c.group := by
  induction pairs generalizing acc with
  | nil => exact Or.inl h
  | cons p rest ih =>
    rw [List.foldl_cons] at h
    rcases ih _ h with h' | ⟨c, u, hcu, he, hg⟩
    · simp only [pushGroup] at h'
      by_cases hgg : g = p.1.group
      · rw [if_pos hgg] at h'
        by_cases hlen : (acc p.1.group).length < 60
        · rw [if_pos hlen] at h'
          rcases List.mem_append.mp h' with h'' | h''
          · exact Or.inl (hgg ▸ h'')
          · exact Or.inr ⟨p.1, p.2, List.mem_cons_self _ _, List.mem_singleton.mp h'', hgg⟩
        · rw [if_neg hlen] at h'
          exact Or.inl (hgg ▸ h')
      · rw [if_neg hgg] at h'
        exact Or.inl h'
    · exact Or.inr ⟨c, u, List.mem_cons_of_mem _ hcu, he, hg⟩

/-- A line the loop ignores: neither a metadata (`#EXTINF`) line nor a URL
(`http...`) line. -/
def plainLine (l : String) : Prop :=
  ¬jsStartsWith (jsTrim l) "#EXTINF" = true ∧ ¬jsStartsWith (jsTrim l) "http" = true

theorem iptvPairs_sound (extract : String → IptvMeta) :
    ∀ (lines : List String) (current : Option IptvMeta) (c : IptvMeta) (u : String),
      (c, u) ∈ iptvPairs extract lines current →
      (∃ mid uline post, lines = mid ++ uline :: post ∧ current = some c ∧
          jsTrim uline = u ∧ jsStartsWith u ("http") = true ∧ ∀ l ∈ mid, plainLine l)
      ∨ (∃ pre mline mid uline post,
          lines = pre ++ mline :: (mid ++ uline :: post) ∧
          jsStartsWith (jsTrim mline) "#EXTINF" = true ∧ c = extract (jsTrim mline) ∧
          jsTrim uline = u ∧ jsStartsWith u ("http") = true ∧ ∀ l ∈ mid, plainLine l) := by
  intro lines
  induction lines with
  | nil => exact fun current c u h => absurd h (List.not_mem_nil _)
  | cons line rest ih =>
    intro current c u h
    rw [iptvPairs.eq_def] at h
    dsimp only at h
    by_cases h1 : jsStartsWith (jsTrim line) "#EXTINF" = true
    · rw [if_pos h1] at h
      rcases ih (some (extract (jsTrim line))) c u h with
        ⟨mid, uline, post, hl, hcur, hu, hhttp, hmid⟩ |
        ⟨pre, mline, mid, uline, post, hl, hm, hc, hu, hhttp, hmid⟩
      · right
        exact ⟨[], line, mid, uline, post, by rw [List.nil_append, hl], h1,
          (Option.some.inj hcur).symm, hu, hhttp, hmid⟩
      · right
        exact ⟨line :: pre, mline, mid, uline, post, by rw [hl, List.cons_append], hm, hc,
          hu, hhttp, hmid⟩
    · rw [if_neg h1] at h
      by_cases h2 : jsStartsWith (jsTrim line) "http" = true
      · rw [if_pos h2] at h
        cases current with
        | some c0 =>
          rcases List.mem_cons.mp h with hph | h'
          · injection hph with hc hu
            left
            exact ⟨[], line, rest, rfl, by rw [hc], hu.symm, hu ▸ h2, by simp⟩
          · rcases ih none c u h' with ⟨mid, uline, post, hl, hcur, _⟩ |
              ⟨pre, mline, mid, uline, post, hl, hm, hc, hu, hhttp, hmid⟩
            · exact absurd hcur (by simp)
            · right
              exact ⟨line :: pre, mline, mid, uline, post, by rw [hl, List.cons_append],
                hm, hc, hu, hhttp, hmid⟩
        | none =>
          rcases ih none c u h with ⟨mid, uline, post, hl, hcur, _⟩ |
            ⟨pre, mline, mid, uline, post, hl, hm, hc, hu, hhttp, hmid⟩
          · exact absurd hcur (by simp)
          · right
            exact ⟨line :: pre, mline, mid, uline, post, by rw [hl, List.cons_append],
              hm, hc, hu, hhttp, hmid⟩
      · rw [if_neg h2] at h
        rcases ih current c u h with ⟨mid, uline, post, hl, hcur, hu, hhttp, hmid⟩ |
          ⟨pre, mline, mid, uline, post, hl, hm, hc, hu, hhttp, hmid⟩
        · left
          refine ⟨line :: mid, uline, post, by rw [hl, List.cons_append], hcur, hu, hhttp, ?_⟩
          intro l hlmem
          rcases List.mem_cons.mp hlmem with rfl | hlmem
          · exact ⟨h1, h2⟩
          · exact hmid l hlmem
        · right
          exact ⟨line :: pre, mline, mid, uline, post, by rw [hl, List.cons_append], hm, hc,
            hu, hhttp, hmid⟩

/-- The stand-in field extraction used by the concrete inputs below: every
`#EXTINF` line yields the all-default metadata (name `Unknown`, group
`General`), as the source's regexes do on a metadata line with no embedded
attributes. -/
def extractDefaultW : String → IptvMeta := fun _ => {}

/-- Counterexample to C9 as stated: in the playlist
`#EXTINF:-1,A` / `#JUNK` / `http://u.example`, an entry is emitted into group
`General`, yet the non-blank line following its metadata line (`#JUNK`) is
not the line that supplies its URL — the URL comes from the later
`http://u.example` line, the intervening junk line being skipped. -/
theorem fetchIptvOrg_following_line_counterexample :
    fetchIptvOrg extractDefaultW (some ("#EXTINF:-1,A\n#JUNK\nhttp://u.example")) "General" =
        [iptvEntry {} "http://u.example"] ∧
      jsTrim ("#JUNK") ≠ "" ∧
      jsStartsWith (jsTrim ("#JUNK")) "http" = false ∧
      (iptvEntry {} "http://u.example").url ≠ jsTrim ("#JUNK") := by decide

/-- C9 as amended: every entry `fetchIptvOrg` emits into a group comes from a
metadata line (announcing it, and supplying its fields through the
extraction) together with a later URL line (a line whose trimmed form starts
with `http`) that supplies its URL, with no other metadata or URL line
between the two — lines between the halves that are neither are skipped; an
entry is emitted only when both halves are present. -/
theorem fetchIptvOrg_pairing (extract : String → IptvMeta) (text g : String) (e : Entry)
    (h : e ∈ fetchIptvOrg extract (some text) g) :
    ∃ c u, e = iptvEntry c u ∧ g = c.group ∧
      ∃ pre mline mid uline post,
        jsSplitLines text = pre ++ mline :: (mid ++ uline :: post) ∧
        jsStartsWith (jsTrim mline) "#EXTINF" = true ∧ c = extract (jsTrim mline) ∧
        jsTrim uline = u ∧ jsStartsWith u ("http") = true ∧
        ∀ l ∈ mid, plainLine l := by
  simp only [fetchIptvOrg] at h
  rw [iptvLoop_eq_foldl] at h
  rcases foldl_pushGroup_mem _ _ _ _ h with h0 | ⟨c, u, hcu, he, hg⟩
  · exact absurd h0 (List.not_mem_nil _)
  · refine ⟨c, u, he, hg, ?_⟩
    rcases iptvPairs_sound extract _ none c u hcu with ⟨_, _, _, _, hcur, _⟩ | hB
    · exact absurd hcur (by simp)
    · exact hB

theorem fetchIptvOrg_pairing_witness :
    (iptvEntry {} "http://u.example" ∈
        fetchIptvOrg extractDefaultW (some ("#EXTINF:-1,A\nhttp://u.example")) "General") ∧
      (∃ c u, iptvEntry {} "http://u.example" = iptvEntry c u ∧ "General" = c.group ∧
        ∃ pre mline mid uline post,
          jsSplitLines ("#EXTINF:-1,A\nhttp://u.example") =
            pre ++ mline :: (mid ++ uline :: post) ∧
          jsStartsWith (jsTrim mline) "#EXTINF" = true ∧ c = extractDefaultW (jsTrim mline) ∧
          jsTrim uline = u ∧ jsStartsWith u ("http") = true ∧
          ∀ l ∈ mid, plainLine l) :=
  ⟨by decide,
    fetchIptvOrg_pairing extractDefaultW ("#EXTINF:-1,A\nhttp://u.example") ("General")
      (iptvEntry {} "http://u.example") (by decide)⟩

end BlogTV
